import Mathlib

/-!
Verification of the `slog.py` sparse logistic-regression example.

The script fits a probit/logit-link Gaussian-process model with a quadratic
kernel to synthetic data and post-processes posterior samples into
per-dimension and per-pair activity statistics.  Below we embed its pure
numeric helpers over `ℚ` (idealised exact arithmetic in place of floats),
its data-generation routine with the pseudo-random draws supplied by an
explicit oracle, and the dataflow skeleton of `main` with the external MCMC
sampler abstracted as an oracle, and prove the stated properties.
-/

namespace Slog

/-- `dot(X, Z) = np.dot(X, Z[..., None])[..., 0]`: entry `(i, j)` is the dot
product of row `i` of `X` with row `j` of `Z`. -/
def dot {n m p : ℕ} (X : Fin n → Fin p → ℚ) (Z : Fin m → Fin p → ℚ) :
    Fin n → Fin m → ℚ :=
  fun i j => ∑ k, X i k * Z j k

/-- The quadratic kernel of `slog.py`:
`k1 = 0.5 * eta2sq * (1 + dot(X, Z))^2`,
`k2 = -0.5 * eta2sq * dot(X^2, Z^2)`,
`k3 = (eta1sq - eta2sq) * dot(X, Z)`,
`k4 = c^2 - 0.5 * eta2sq`, plus `jitter * eye` when `X.shape == Z.shape`
(both matrices have `p` columns, so the shape test is `n = m`, and the
`eye` term contributes exactly on the diagonal). -/
def kernel {n m p : ℕ} (X : Fin n → Fin p → ℚ) (Z : Fin m → Fin p → ℚ)
    (eta1 eta2 c jitter : ℚ) : Fin n → Fin m → ℚ :=
  fun i j =>
    (1 / 2) * eta2 ^ 2 * (1 + dot X Z i j) ^ 2
      + (-(1 / 2)) * eta2 ^ 2 *
        dot (fun a b => (X a b) ^ 2) (fun a b => (Z a b) ^ 2) i j
      + (eta1 ^ 2 - eta2 ^ 2) * dot X Z i j
      + ((c ^ 2 - (1 / 2) * eta2 ^ 2)
          + if n = m ∧ (i : ℕ) = (j : ℕ) then jitter else 0)

/-- C2: on inputs of different shapes (`n ≠ m`, so no jitter is added),
entry `(i, j)` of the kernel is
`c² + η₁²·(xᵢ·zⱼ) + (η₂²/2)·((xᵢ·zⱼ)² − Σₖ xᵢₖ² zⱼₖ²)`,
the kernel of the quadratic (linear plus pairwise-interaction) feature map. -/
theorem kernel_offdiagonal_quadratic_form {n m p : ℕ}
    (X : Fin n → Fin p → ℚ) (Z : Fin m → Fin p → ℚ)
    (eta1 eta2 c jitter : ℚ) (hnm : n ≠ m) (i : Fin n) (j : Fin m) :
    kernel X Z eta1 eta2 c jitter i j =
      c ^ 2 + eta1 ^ 2 * dot X Z i j
        + eta2 ^ 2 / 2 * ((dot X Z i j) ^ 2 - ∑ k, (X i k) ^ 2 * (Z j k) ^ 2) := by
  have hcond : ¬(n = m ∧ (i : ℕ) = (j : ℕ)) := fun h => hnm h.1
  simp only [kernel, if_neg hcond]
  have hsq : dot (fun a b => (X a b) ^ 2) (fun a b => (Z a b) ^ 2) i j
      = ∑ k, (X i k) ^ 2 * (Z j k) ^ 2 := rfl
  rw [hsq]
  ring

/-- Witness for C2 at a concrete instance: `X : 1×1`, `Z : 2×1`. -/
theorem kernel_offdiagonal_quadratic_form_witness :
    kernel (fun (_ : Fin 1) (_ : Fin 1) => (1 : ℚ))
        (fun (_ : Fin 2) (_ : Fin 1) => (2 : ℚ)) 1 1 1 (1 / 1000000) 0 0 =
      1 ^ 2 + 1 ^ 2 * dot (fun (_ : Fin 1) (_ : Fin 1) => (1 : ℚ))
          (fun (_ : Fin 2) (_ : Fin 1) => (2 : ℚ)) 0 0
        + 1 ^ 2 / 2 *
          ((dot (fun (_ : Fin 1) (_ : Fin 1) => (1 : ℚ))
              (fun (_ : Fin 2) (_ : Fin 1) => (2 : ℚ)) 0 0) ^ 2
            - ∑ _k : Fin 1, ((1 : ℚ)) ^ 2 * ((2 : ℚ)) ^ 2) :=
  kernel_offdiagonal_quadratic_form
    (fun (_ : Fin 1) (_ : Fin 1) => (1 : ℚ))
    (fun (_ : Fin 2) (_ : Fin 1) => (2 : ℚ)) 1 1 1 (1 / 1000000)
    (by decide) 0 0

/-- The cross-covariance `k_probeX = kernel(kprobe, kX, eta1, eta2, c)` built
inside `compute_coefficient_mean_variance`, where `kprobe = kappa * probe`
and `kX = kappa * X` (the length-`p` vector `kappa` scales columns).  The
`jitter` argument is the kernel's default `1.0e-6` at the call site. -/
def k_probeX {r N p : ℕ} (probe : Fin r → Fin p → ℚ) (X : Fin N → Fin p → ℚ)
    (kappa : Fin p → ℚ) (eta1 eta2 c jitter : ℚ) : Fin r → Fin N → ℚ :=
  kernel (fun i j => kappa j * probe i j) (fun i j => kappa j * X i j)
    eta1 eta2 c jitter

/-- C8: `kernel` adds the diagonal jitter whenever its two inputs merely have
equal shapes, even when they are distinct matrices.  Consequently the
cross-covariance `k_probeX` is perturbed by `jitter` on its diagonal whenever
the probe has as many rows as `X` (first conjunct, `probe` and `X` arbitrary
and generally distinct), and is unperturbed otherwise (second conjunct). -/
theorem k_probeX_jitter_iff_shape_match {r N p : ℕ}
    (probe : Fin r → Fin p → ℚ) (X : Fin N → Fin p → ℚ)
    (sqprobe sqX : Fin N → Fin p → ℚ) (kappa : Fin p → ℚ)
    (eta1 eta2 c jitter : ℚ) :
    (∀ i j : Fin N, k_probeX sqprobe sqX kappa eta1 eta2 c jitter i j =
      k_probeX sqprobe sqX kappa eta1 eta2 c 0 i j
        + if (i : ℕ) = (j : ℕ) then jitter else 0) ∧
    (r ≠ N → ∀ (i : Fin r) (j : Fin N),
      k_probeX probe X kappa eta1 eta2 c jitter i j =
        k_probeX probe X kappa eta1 eta2 c 0 i j) := by
  constructor
  · intro i j
    show (kernel _ _ _ _ _ _ i j : ℚ) = kernel _ _ _ _ _ _ i j + _
    unfold kernel
    by_cases hij : (i : ℕ) = (j : ℕ)
    · rw [if_pos (show N = N ∧ (i : ℕ) = (j : ℕ) from ⟨rfl, hij⟩),
        if_pos (show N = N ∧ (i : ℕ) = (j : ℕ) from ⟨rfl, hij⟩), if_pos hij]
      ring
    · rw [if_neg (show ¬(N = N ∧ (i : ℕ) = (j : ℕ)) from fun h => hij h.2),
        if_neg (show ¬(N = N ∧ (i : ℕ) = (j : ℕ)) from fun h => hij h.2),
        if_neg hij]
      ring
  · intro hrN i j
    show (kernel _ _ _ _ _ _ i j : ℚ) = kernel _ _ _ _ _ _ i j
    unfold kernel
    rw [if_neg (show ¬(r = N ∧ (i : ℕ) = (j : ℕ)) from fun h => hrN h.1),
      if_neg (show ¬(r = N ∧ (i : ℕ) = (j : ℕ)) from fun h => hrN h.1)]

/-- Witness for C8 at a concrete instance: a 2-row probe against a 2-row `X`
(diagonal perturbed by the jitter) and a 2-row probe against a 3-row `X`
(no perturbation anywhere). -/
theorem k_probeX_jitter_iff_shape_match_witness :
    (k_probeX (fun (_ : Fin 2) (_ : Fin 1) => (1 : ℚ))
        (fun (_ : Fin 2) (_ : Fin 1) => (2 : ℚ)) (fun _ => 1) 1 1 1
        (1 / 1000000) 0 0 =
      k_probeX (fun (_ : Fin 2) (_ : Fin 1) => (1 : ℚ))
          (fun (_ : Fin 2) (_ : Fin 1) => (2 : ℚ)) (fun _ => 1) 1 1 1 0 0 0
        + if (0 : ℕ) = (0 : ℕ) then (1 / 1000000 : ℚ) else 0) ∧
    (k_probeX (fun (_ : Fin 2) (_ : Fin 1) => (1 : ℚ))
        (fun (_ : Fin 3) (_ : Fin 1) => (2 : ℚ)) (fun _ => 1) 1 1 1
        (1 / 1000000) 0 0 =
      k_probeX (fun (_ : Fin 2) (_ : Fin 1) => (1 : ℚ))
          (fun (_ : Fin 3) (_ : Fin 1) => (2 : ℚ)) (fun _ => 1) 1 1 1 0 0 0) :=
  And.intro
    ((k_probeX_jitter_iff_shape_match
        (fun (_ : Fin 2) (_ : Fin 1) => (1 : ℚ))
        (fun (_ : Fin 2) (_ : Fin 1) => (2 : ℚ))
        (fun (_ : Fin 2) (_ : Fin 1) => (1 : ℚ))
        (fun (_ : Fin 2) (_ : Fin 1) => (2 : ℚ))
        (fun _ => 1) 1 1 1 (1 / 1000000)).1 0 0)
    ((k_probeX_jitter_iff_shape_match
        (fun (_ : Fin 2) (_ : Fin 1) => (1 : ℚ))
        (fun (_ : Fin 3) (_ : Fin 1) => (2 : ℚ))
        (fun (_ : Fin 3) (_ : Fin 1) => (1 : ℚ))
        (fun (_ : Fin 3) (_ : Fin 1) => (2 : ℚ))
        (fun _ => 1) 1 1 1 (1 / 1000000)).2 (by decide) 0 0)

/-- The probe of `compute_singleton_mean_variance`: a `2 × P` matrix of
zeros whose column `d` is set to `[1.0, -1.0]`. -/
def singletonProbe {p : ℕ} (d : Fin p) : Fin 2 → Fin p → ℚ :=
  fun a k => if k = d then ![1, -1] a else 0

/-- The weight vector `[0.50, -0.50]` of `compute_singleton_mean_variance`. -/
def singletonVec : Fin 2 → ℚ := ![1 / 2, -(1 / 2)]

/-- The probe of `compute_pairwise_mean_variance`: a `4 × P` matrix of zeros
whose column `dim1` is set to `[1, 1, -1, -1]` and then whose column `dim2`
is set to `[1, -1, 1, -1]` (the second update overwrites the first where the
columns coincide, matching the two successive `index_update` calls). -/
def pairwiseProbe {p : ℕ} (d1 d2 : Fin p) : Fin 4 → Fin p → ℚ :=
  fun a k => if k = d2 then ![1, -1, 1, -1] a
    else if k = d1 then ![1, 1, -1, -1] a else 0

/-- The weight vector `[0.25, -0.25, -0.25, 0.25]` of
`compute_pairwise_mean_variance`. -/
def pairwiseVec : Fin 4 → ℚ := ![1 / 4, -(1 / 4), -(1 / 4), 1 / 4]

/-- A quadratic function
`f(x) = c0 + Σₖ θₖ xₖ + Σ_{k<l} θₖₗ xₖ xₗ`: the family of logit functions
the kernel of `slog.py` corresponds to, used to state what the probes
extract. -/
def quadFun {p : ℕ} (c0 : ℚ) (theta : Fin p → ℚ) (thetaq : Fin p → Fin p → ℚ)
    (x : Fin p → ℚ) : ℚ :=
  c0 + (∑ k, theta k * x k)
    + ∑ k : Fin p, ∑ l : Fin p,
        if (k : ℕ) < (l : ℕ) then thetaq k l * x k * x l else 0

theorem quadFun_single {p : ℕ} (c0 : ℚ) (theta : Fin p → ℚ)
    (thetaq : Fin p → Fin p → ℚ) (d : Fin p) (v : ℚ) :
    quadFun c0 theta thetaq (fun k => if k = d then v else 0)
      = c0 + theta d * v := by
  simp only [quadFun]
  have hlin : (∑ k, theta k * if k = d then v else 0) = theta d * v := by
    have h1 : ∀ k : Fin p, (theta k * if k = d then v else 0)
        = if k = d then theta k * v else 0 := by
      intro k; by_cases hk : k = d <;> simp [hk]
    rw [Finset.sum_congr rfl fun k _ => h1 k]
    simp [Finset.sum_ite_eq']
  have hquad : (∑ k : Fin p, ∑ l : Fin p, if (k : ℕ) < (l : ℕ) then
      thetaq k l * (if k = d then v else 0) * (if l = d then v else 0)
      else 0) = 0 := by
    apply Finset.sum_eq_zero
    intro k _
    apply Finset.sum_eq_zero
    intro l _
    by_cases hk : k = d
    · by_cases hl : l = d
      · subst hk; subst hl; simp
      · simp [hl]
    · simp [hk]
  rw [hlin, hquad, add_zero]

theorem quadFun_pair {p : ℕ} (c0 : ℚ) (theta : Fin p → ℚ)
    (thetaq : Fin p → Fin p → ℚ) {d1 d2 : Fin p} (hne : d1 ≠ d2) (a b : ℚ) :
    quadFun c0 theta thetaq (fun k => if k = d2 then b else
      if k = d1 then a else 0)
      = c0 + theta d1 * a + theta d2 * b
        + (if (d1 : ℕ) < (d2 : ℕ) then thetaq d1 d2 else thetaq d2 d1)
          * (a * b) := by
  simp only [quadFun]
  have hne' : d2 ≠ d1 := fun h => hne h.symm
  have hx1 : (if d1 = d2 then b else if d1 = d1 then a else 0) = a := by
    rw [if_neg hne, if_pos rfl]
  have hx2 : (if d2 = d2 then b else if d2 = d1 then a else 0) = b := by
    rw [if_pos rfl]
  have hx0 : ∀ k : Fin p, k ≠ d1 → k ≠ d2 →
      (if k = d2 then b else if k = d1 then a else 0) = 0 := by
    intro k h1 h2; rw [if_neg h2, if_neg h1]
  have hlin : (∑ k, theta k * if k = d2 then b else if k = d1 then a else 0)
      = theta d1 * a + theta d2 * b := by
    have h1 : ∀ k : Fin p,
        (theta k * if k = d2 then b else if k = d1 then a else 0)
          = (if k = d2 then theta k * b else 0)
            + (if k = d1 then theta k * a else 0) := by
      intro k
      split_ifs with h2 h3
      · exact absurd (h3.symm.trans h2) hne
      · ring
      · ring
      · ring
    rw [Finset.sum_congr rfl fun k _ => h1 k, Finset.sum_add_distrib]
    simp [Finset.sum_ite_eq']
    ring
  have hquad : (∑ k : Fin p, ∑ l : Fin p, if (k : ℕ) < (l : ℕ) then
      thetaq k l * (if k = d2 then b else if k = d1 then a else 0)
        * (if l = d2 then b else if l = d1 then a else 0) else 0)
      = (if (d1 : ℕ) < (d2 : ℕ) then thetaq d1 d2 else thetaq d2 d1)
        * (a * b) := by
    have houter : ∀ k : Fin p, k ∉ ({d1, d2} : Finset (Fin p)) →
        (∑ l : Fin p, if (k : ℕ) < (l : ℕ) then
          thetaq k l * (if k = d2 then b else if k = d1 then a else 0)
            * (if l = d2 then b else if l = d1 then a else 0) else 0) = 0 := by
      intro k hk
      simp only [Finset.mem_insert, Finset.mem_singleton, not_or] at hk
      apply Finset.sum_eq_zero
      intro l _
      rw [hx0 k hk.1 hk.2]
      simp
    have hinner : ∀ k : Fin p, ∀ l : Fin p, l ∉ ({d1, d2} : Finset (Fin p)) →
        (if (k : ℕ) < (l : ℕ) then
          thetaq k l * (if k = d2 then b else if k = d1 then a else 0)
            * (if l = d2 then b else if l = d1 then a else 0) else 0) = 0 := by
      intro k l hl
      simp only [Finset.mem_insert, Finset.mem_singleton, not_or] at hl
      rw [hx0 l hl.1 hl.2]
      simp
    rw [← Finset.sum_subset (Finset.subset_univ ({d1, d2} : Finset (Fin p)))
      (fun k _ hk => houter k hk)]
    have hres : ∀ k : Fin p,
        (∑ l : Fin p, if (k : ℕ) < (l : ℕ) then
          thetaq k l * (if k = d2 then b else if k = d1 then a else 0)
            * (if l = d2 then b else if l = d1 then a else 0) else 0)
        = (∑ l ∈ ({d1, d2} : Finset (Fin p)),
            if (k : ℕ) < (l : ℕ) then
              thetaq k l * (if k = d2 then b else if k = d1 then a else 0)
                * (if l = d2 then b else if l = d1 then a else 0) else 0) := by
      intro k
      rw [← Finset.sum_subset (Finset.subset_univ ({d1, d2} : Finset (Fin p)))
        (fun l _ hl => hinner k l hl)]
    rw [Finset.sum_congr rfl fun k _ => hres k]
    rw [Finset.sum_pair hne, Finset.sum_pair hne, Finset.sum_pair hne]
    rw [hx1, hx2]
    rcases Nat.lt_trichotomy (d1 : ℕ) (d2 : ℕ) with h | h | h
    · have h21 : ¬((d2 : ℕ) < (d1 : ℕ)) := Nat.lt_asymm h
      rw [if_pos h, if_neg h21, if_neg (lt_irrefl (d1 : ℕ)),
        if_neg (lt_irrefl (d2 : ℕ)), if_pos h]
      ring
    · exact absurd (Fin.ext h) hne
    · have h12 : ¬((d1 : ℕ) < (d2 : ℕ)) := Nat.lt_asymm h
      rw [if_neg h12, if_pos h, if_neg (lt_irrefl (d1 : ℕ)),
        if_neg (lt_irrefl (d2 : ℕ)), if_neg h12]
      ring
  rw [hlin, hquad]
  ring

/-- C3: the probe points and weight vectors exactly extract polynomial
coefficients.  For every quadratic
`f(x) = c0 + Σₖ θₖ xₖ + Σ_{k<l} θₖₗ xₖ xₗ`, the singleton probe (rows `±e_d`
with weights `±1/2`) yields `θ_d`, and the pairwise probe (rows `±e_i ± e_j`
with weights `1/4, -1/4, -1/4, 1/4`) yields `θ_{ij}` for `i ≠ j` (the
coefficient of `x_i x_j`, indexed by the ordered pair). -/
theorem probes_extract_coefficients {p : ℕ} (c0 : ℚ) (theta : Fin p → ℚ)
    (thetaq : Fin p → Fin p → ℚ) (d d1 d2 : Fin p) (hne : d1 ≠ d2) :
    (∑ a, singletonVec a * quadFun c0 theta thetaq (singletonProbe d a)
      = theta d) ∧
    (∑ a, pairwiseVec a * quadFun c0 theta thetaq (pairwiseProbe d1 d2 a)
      = if (d1 : ℕ) < (d2 : ℕ) then thetaq d1 d2 else thetaq d2 d1) := by
  constructor
  · rw [Fin.sum_univ_two]
    show singletonVec 0 * quadFun c0 theta thetaq
        (fun k => if k = d then ![1, -1] 0 else 0)
      + singletonVec 1 * quadFun c0 theta thetaq
        (fun k => if k = d then ![1, -1] 1 else 0) = theta d
    rw [quadFun_single, quadFun_single]
    simp [singletonVec]
    ring
  · rw [Fin.sum_univ_four]
    show pairwiseVec 0 * quadFun c0 theta thetaq
        (fun k => if k = d2 then ![1, -1, 1, -1] 0 else
          if k = d1 then ![1, 1, -1, -1] 0 else 0)
      + pairwiseVec 1 * quadFun c0 theta thetaq
        (fun k => if k = d2 then ![1, -1, 1, -1] 1 else
          if k = d1 then ![1, 1, -1, -1] 1 else 0)
      + pairwiseVec 2 * quadFun c0 theta thetaq
        (fun k => if k = d2 then ![1, -1, 1, -1] 2 else
          if k = d1 then ![1, 1, -1, -1] 2 else 0)
      + pairwiseVec 3 * quadFun c0 theta thetaq
        (fun k => if k = d2 then ![1, -1, 1, -1] 3 else
          if k = d1 then ![1, 1, -1, -1] 3 else 0) = _
    rw [quadFun_pair c0 theta thetaq hne, quadFun_pair c0 theta thetaq hne,
      quadFun_pair c0 theta thetaq hne, quadFun_pair c0 theta thetaq hne]
    simp [pairwiseVec]
    ring

/-- Witness for C3 at `p = 2`, `d = 0`, `(d1, d2) = (0, 1)`,
`θ = (3, 5)`, constant `θq = 7`, `c0 = 11`. -/
theorem probes_extract_coefficients_witness :
    (∑ a, singletonVec a *
        quadFun 11 ![3, 5] (fun _ _ => (7 : ℚ)) (singletonProbe 0 a)
      = ![3, 5] 0) ∧
    (∑ a, pairwiseVec a *
        quadFun 11 ![3, 5] (fun _ _ => (7 : ℚ)) (pairwiseProbe 0 1 a)
      = if ((0 : Fin 2) : ℕ) < ((1 : Fin 2) : ℕ)
          then (fun (_ _ : Fin 2) => (7 : ℚ)) 0 1
          else (fun (_ _ : Fin 2) => (7 : ℚ)) 1 0) :=
  probes_extract_coefficients 11 ![3, 5] (fun _ _ => (7 : ℚ)) 0 0 1
    (by decide)

/-- `np.mean` of a 1-d array, as a rational (sum divided by length). -/
def npMean (l : List ℚ) : ℚ := l.sum / l.length

/-- `gaussian_mixture_stats(mus, variances)` from `slog.py`:
`mean_mu = np.mean(mus)` and
`mean_var = np.mean(variances) + np.mean(np.square(mus)) - np.square(mean_mu)`. -/
def gaussian_mixture_stats (mus variances : List ℚ) : ℚ × ℚ :=
  (npMean mus,
    npMean variances + npMean (mus.map (fun m => m ^ 2)) - (npMean mus) ^ 2)

/-- Modelled from the spec: the mean of an equally-weighted Gaussian mixture
with component means `mus`. -/
def mixtureMean (mus : List ℚ) : ℚ := mus.sum / mus.length

/-- Modelled from the spec: the variance of an equally-weighted Gaussian
mixture, `E[X²] − E[X]²` where the mixture second moment is the average of
the component second moments `vᵢ + μᵢ²`. -/
def mixtureVariance (mus variances : List ℚ) : ℚ :=
  ((mus.zip variances).map (fun q => q.2 + q.1 ^ 2)).sum / mus.length
    - (mus.sum / mus.length) ^ 2

theorem zip_add_sq_sum (mus variances : List ℚ)
    (hlen : mus.length = variances.length) :
    ((mus.zip variances).map (fun q => q.2 + q.1 ^ 2)).sum
      = variances.sum + (mus.map (fun m => m ^ 2)).sum := by
  induction mus generalizing variances with
  | nil =>
    cases variances with
    | nil => simp
    | cons v vs => simp at hlen
  | cons m ms ih =>
    cases variances with
    | nil => simp at hlen
    | cons v vs =>
      simp only [List.length_cons, Nat.succ_inj] at hlen
      simp only [List.zip_cons_cons, List.map_cons, List.sum_cons, ih vs hlen]
      ring

theorem sq_sum_le_length_mul_sum_sq (l : List ℚ) :
    l.sum ^ 2 ≤ (l.length : ℚ) * (l.map (fun m => m ^ 2)).sum := by
  induction l with
  | nil => simp
  | cons a t ih =>
    rcases List.eq_nil_or_concat t with h | _
    · subst h; simp
    · have hn : (1 : ℚ) ≤ (t.length : ℚ) := by
        have : 1 ≤ t.length := by
          cases t with
          | nil => simp_all
          | cons b u => simp
        exact_mod_cast this
      have key : (0 : ℚ) ≤ (t.length : ℚ) *
          (((t.length : ℚ) + 1) * (a ^ 2 + (t.map (fun m => m ^ 2)).sum)
            - (a + t.sum) ^ 2) := by
        nlinarith [sq_nonneg ((t.length : ℚ) * a - t.sum), ih,
          mul_nonneg (by linarith : (0 : ℚ) ≤ (t.length : ℚ) + 1)
            (by linarith [ih] :
              (0 : ℚ) ≤ (t.length : ℚ) * (t.map (fun m => m ^ 2)).sum
                - t.sum ^ 2)]
      have hpos : (0 : ℚ) < (t.length : ℚ) := by linarith
      have hfin : (0 : ℚ) ≤ ((t.length : ℚ) + 1)
          * (a ^ 2 + (t.map (fun m => m ^ 2)).sum) - (a + t.sum) ^ 2 :=
        nonneg_of_mul_nonneg_right (by linarith [key]) hpos
      simp only [List.sum_cons, List.map_cons, List.length_cons]
      push_cast
      linarith [hfin]

/-- C6: for non-empty equal-length `mus` and `variances`,
`gaussian_mixture_stats` returns exactly the mean and the variance of the
equally-weighted Gaussian mixture with those component means and variances,
and when every variance is non-negative the returned variance is
non-negative. -/
theorem gaussian_mixture_stats_correct (mus variances : List ℚ)
    (hne : mus ≠ []) (hlen : mus.length = variances.length) :
    gaussian_mixture_stats mus variances
      = (mixtureMean mus, mixtureVariance mus variances) ∧
    ((∀ v ∈ variances, 0 ≤ v) →
      0 ≤ (gaussian_mixture_stats mus variances).2) := by
  have hn : (0 : ℚ) < (mus.length : ℚ) := by
    have : 0 < mus.length := List.length_pos.mpr hne
    exact_mod_cast this
  constructor
  · unfold gaussian_mixture_stats mixtureMean mixtureVariance npMean
    rw [zip_add_sq_sum mus variances hlen, hlen]
    rw [Prod.mk.injEq]
    refine ⟨rfl, ?_⟩
    rw [← hlen]
    field_simp
  · intro hv
    have hvar : (0 : ℚ) ≤ variances.sum := List.sum_nonneg hv
    have hsq := sq_sum_le_length_mul_sum_sq mus
    unfold gaussian_mixture_stats npMean
    rw [← hlen]
    have h1 : (0 : ℚ) ≤ variances.sum / (mus.length : ℚ) :=
      div_nonneg hvar (le_of_lt hn)
    have h2 : (mus.sum / (mus.length : ℚ)) ^ 2
        ≤ (mus.map (fun m => m ^ 2)).sum / (mus.length : ℚ) := by
      rw [div_pow, div_le_div_iff₀ (by positivity) hn]
      calc mus.sum ^ 2 * (mus.length : ℚ)
          ≤ ((mus.length : ℚ) * (mus.map (fun m => m ^ 2)).sum)
              * (mus.length : ℚ) := by
            exact mul_le_mul_of_nonneg_right hsq (le_of_lt hn)
        _ = (mus.map (fun m => m ^ 2)).sum * (mus.length : ℚ) ^ 2 := by ring
    simp only [List.length_map]
    linarith [h1, h2]

/-- Witness for C6 at `mus = [1, 3]`, `variances = [2, 4]`. -/
theorem gaussian_mixture_stats_correct_witness :
    gaussian_mixture_stats [1, 3] [2, 4]
      = (mixtureMean [1, 3], mixtureVariance [1, 3] [2, 4]) ∧
    ((∀ v ∈ ([2, 4] : List ℚ), 0 ≤ v) →
      0 ≤ (gaussian_mixture_stats [1, 3] [2, 4]).2) :=
  gaussian_mixture_stats_correct [1, 3] [2, 4] (by decide) (by decide)

/-- The classification in `main`:
`inactive = "inactive" if lower < 0.0 and upper > 0.0 else "active"` with
`lower = mean - 2*std` and `upper = mean + 2*std`. -/
def classifyDim (mean std : ℚ) : String :=
  if mean - 2 * std < 0 ∧ 0 < mean + 2 * std then "inactive" else "active"

/-- The loop
`for dim, (mean, std) in enumerate(zip(means, stds)): ...
 if inactive == "active": active_dims.append(dim)`
unrolled with explicit running index `d0`. -/
def activeDimsFrom (d0 : ℕ) : List (ℚ × ℚ) → List ℕ
  | [] => []
  | (m, s) :: rest =>
    (if classifyDim m s = "active" then [d0] else [])
      ++ activeDimsFrom (d0 + 1) rest

/-- `active_dims` as accumulated by `main` from the per-dimension posterior
statistics (pairs `(mean, std)`). -/
def activeDims (stats : List (ℚ × ℚ)) : List ℕ := activeDimsFrom 0 stats

theorem mem_activeDimsFrom {stats : List (ℚ × ℚ)} {d0 d : ℕ} :
    d ∈ activeDimsFrom d0 stats ↔
      ∃ i : ℕ, ∃ h : i < stats.length, d = d0 + i ∧
        classifyDim (stats.get ⟨i, h⟩).1 (stats.get ⟨i, h⟩).2 = "active" := by
  induction stats generalizing d0 with
  | nil => simp [activeDimsFrom]
  | cons ms rest ih =>
    obtain ⟨m, s⟩ := ms
    simp only [activeDimsFrom, List.mem_append, ih, List.length_cons]
    constructor
    · rintro (hd | ⟨i, hi, rfl, hcl⟩)
      · by_cases hcl : classifyDim m s = "active"
        · rw [if_pos hcl] at hd
          simp only [List.mem_singleton] at hd
          exact ⟨0, Nat.succ_pos _, by omega, by simpa using hcl⟩
        · rw [if_neg hcl] at hd
          simp at hd
      · exact ⟨i + 1, by omega, by omega, by simpa using hcl⟩
    · rintro ⟨i, hi, rfl, hcl⟩
      cases i with
      | zero =>
        left
        simp only [List.get] at hcl
        rw [if_pos hcl]
        simp
      | succ i =>
        right
        exact ⟨i, by omega, by omega, by simpa using hcl⟩

theorem mem_activeDims {stats : List (ℚ × ℚ)} {d : ℕ} :
    d ∈ activeDims stats ↔
      ∃ h : d < stats.length,
        classifyDim (stats.get ⟨d, h⟩).1 (stats.get ⟨d, h⟩).2 = "active" := by
  unfold activeDims
  rw [mem_activeDimsFrom]
  constructor
  · rintro ⟨i, hi, rfl, hcl⟩
    exact ⟨by simpa using hi, by simpa using hcl⟩
  · rintro ⟨h, hcl⟩
    exact ⟨d, h, by omega, hcl⟩

/-- The elements of `activeDimsFrom d0 stats` are at least `d0`. -/
theorem activeDimsFrom_lower_bound {stats : List (ℚ × ℚ)} {d0 d : ℕ}
    (h : d ∈ activeDimsFrom d0 stats) : d0 ≤ d := by
  rw [mem_activeDimsFrom] at h
  obtain ⟨i, _, rfl, _⟩ := h
  omega

/-- `active_dims` is strictly sorted (each dimension index is appended at
most once, in increasing order). -/
theorem activeDims_sorted (stats : List (ℚ × ℚ)) :
    (activeDims stats).Sorted (· < ·) := by
  suffices h : ∀ (l : List (ℚ × ℚ)) (d0 : ℕ),
      (activeDimsFrom d0 l).Sorted (· < ·) from h stats 0
  intro l
  induction l with
  | nil => intro d0; simp [activeDimsFrom]
  | cons ms rest ih =>
    intro d0
    obtain ⟨m, s⟩ := ms
    by_cases hcl : classifyDim m s = "active"
    · simp only [activeDimsFrom, if_pos hcl, List.singleton_append]
      refine List.sorted_cons.mpr ⟨?_, ih (d0 + 1)⟩
      intro b hb
      have := activeDimsFrom_lower_bound hb
      omega
    · simpa only [activeDimsFrom, if_neg hcl, List.nil_append] using
        ih (d0 + 1)

/-- C1: after posterior summarisation a dimension is classified "inactive"
exactly when its two-sigma interval strictly contains zero
(`mean - 2*std < 0` and `mean + 2*std > 0`) and "active" otherwise; a
boundary case (an endpoint equal to zero) is classified "active"; and the
identified `active_dims` list holds exactly the dimensions so classified
as "active". -/
theorem active_dims_classification (stats : List (ℚ × ℚ)) (d : ℕ)
    (h : d < stats.length) :
    (classifyDim (stats.get ⟨d, h⟩).1 (stats.get ⟨d, h⟩).2 = "inactive" ↔
      ((stats.get ⟨d, h⟩).1 - 2 * (stats.get ⟨d, h⟩).2 < 0 ∧
        0 < (stats.get ⟨d, h⟩).1 + 2 * (stats.get ⟨d, h⟩).2)) ∧
    (d ∈ activeDims stats ↔
      ¬((stats.get ⟨d, h⟩).1 - 2 * (stats.get ⟨d, h⟩).2 < 0 ∧
        0 < (stats.get ⟨d, h⟩).1 + 2 * (stats.get ⟨d, h⟩).2)) ∧
    (((stats.get ⟨d, h⟩).1 - 2 * (stats.get ⟨d, h⟩).2 = 0 ∨
        (stats.get ⟨d, h⟩).1 + 2 * (stats.get ⟨d, h⟩).2 = 0) →
      d ∈ activeDims stats) := by
  have hcl : ∀ m s : ℚ, (classifyDim m s = "active" ↔
      ¬(m - 2 * s < 0 ∧ 0 < m + 2 * s)) := by
    intro m s
    unfold classifyDim
    by_cases hc : m - 2 * s < 0 ∧ 0 < m + 2 * s
    · rw [if_pos hc]
      exact iff_of_false (by decide) (not_not_intro hc)
    · rw [if_neg hc]
      exact iff_of_true rfl hc
  have hcl2 : ∀ m s : ℚ, (classifyDim m s = "inactive" ↔
      (m - 2 * s < 0 ∧ 0 < m + 2 * s)) := by
    intro m s
    unfold classifyDim
    by_cases hc : m - 2 * s < 0 ∧ 0 < m + 2 * s
    · rw [if_pos hc]
      exact iff_of_true rfl hc
    · rw [if_neg hc]
      exact iff_of_false (by decide) hc
  refine ⟨hcl2 _ _, ?_, ?_⟩
  · rw [mem_activeDims]
    constructor
    · rintro ⟨h2, hc⟩
      exact (hcl _ _).mp hc
    · intro hc
      exact ⟨h, (hcl _ _).mpr hc⟩
  · intro hb
    rw [mem_activeDims]
    refine ⟨h, (hcl _ _).mpr ?_⟩
    rintro ⟨hlt, hgt⟩
    rcases hb with hb | hb
    · exact absurd (hb ▸ hlt) (lt_irrefl 0)
    · exact absurd (hb ▸ hgt) (lt_irrefl 0)

/-- Witness for C1 at `stats = [(0, 0)]`, `d = 0`: the lower endpoint is
exactly zero, so dimension `0` is classified "active" and identified. -/
theorem active_dims_classification_witness :
    (classifyDim 0 0 = "inactive" ↔
      ((0 : ℚ) - 2 * 0 < 0 ∧ 0 < (0 : ℚ) + 2 * 0)) ∧
    (0 ∈ activeDims [((0 : ℚ), (0 : ℚ))] ↔
      ¬((0 : ℚ) - 2 * 0 < 0 ∧ 0 < (0 : ℚ) + 2 * 0)) ∧
    (((0 : ℚ) - 2 * 0 = 0 ∨ (0 : ℚ) + 2 * 0 = 0) →
      0 ∈ activeDims [((0 : ℚ), (0 : ℚ))]) :=
  active_dims_classification [((0 : ℚ), (0 : ℚ))] 0 (by decide)

/-- `dim_pairs = np.array(list(itertools.product(active_dims, active_dims)))`. -/
def dimPairs (active : List ℕ) : List (ℕ × ℕ) := active ×ˢ active

/-- The test `not (lower < 0.0 and upper > 0.0)` applied to a pair's
posterior mean and std in `main`'s interaction loop. -/
def isIdentifiedInteraction (mean std : ℚ) : Bool :=
  !(decide (mean - 2 * std < 0 ∧ 0 < mean + 2 * std))

/-- `active_quad_dims` as accumulated by `main`: guarded by
`if len(active_dims) > 0`, iterating over `dim_pairs`, skipping pairs with
`dim1 >= dim2` and appending a pair exactly when its two-sigma interval
does not strictly contain zero.  `stat` abstracts
`analyze_pair_of_dimensions` (posterior mean and std of a pair). -/
def activeQuadDims (active : List ℕ) (stat : ℕ → ℕ → ℚ × ℚ) :
    List (ℕ × ℕ) :=
  if 0 < active.length then
    (dimPairs active).filter (fun q =>
      decide (q.1 < q.2) &&
        isIdentifiedInteraction (stat q.1 q.2).1 (stat q.1 q.2).2)
  else []

/-- The pairwise posterior statistics `main` computes (the `vmap` over all
of `dim_pairs`, executed only when some dimension is active). -/
def pairStatsComputed (active : List ℕ) (stat : ℕ → ℕ → ℚ × ℚ) :
    List (ℚ × ℚ) :=
  if 0 < active.length then (dimPairs active).map (fun q => stat q.1 q.2)
  else []

/-- C5: pairwise statistics are reported only over previously identified
active dimensions: every pair in `active_quad_dims` has `dim1 < dim2` with
both endpoints active; the reported list has no duplicates and never holds
both orientations of a pair (each unordered pair at most once); a pair is
reported exactly when its two-sigma interval does not strictly contain
zero; and when no dimension is active nothing pairwise is computed. -/
theorem active_quad_dims_spec (active : List ℕ) (stat : ℕ → ℕ → ℚ × ℚ)
    (hnd : active.Nodup) :
    (∀ q : ℕ × ℕ, q ∈ activeQuadDims active stat ↔
      (q.1 ∈ active ∧ q.2 ∈ active ∧ q.1 < q.2 ∧
        ¬((stat q.1 q.2).1 - 2 * (stat q.1 q.2).2 < 0 ∧
          0 < (stat q.1 q.2).1 + 2 * (stat q.1 q.2).2))) ∧
    (activeQuadDims active stat).Nodup ∧
    (∀ a b : ℕ, (a, b) ∈ activeQuadDims active stat →
      (b, a) ∉ activeQuadDims active stat) ∧
    (active = [] → activeQuadDims active stat = [] ∧
      pairStatsComputed active stat = []) := by
  have hmem : ∀ q : ℕ × ℕ, q ∈ activeQuadDims active stat ↔
      (q.1 ∈ active ∧ q.2 ∈ active ∧ q.1 < q.2 ∧
        ¬((stat q.1 q.2).1 - 2 * (stat q.1 q.2).2 < 0 ∧
          0 < (stat q.1 q.2).1 + 2 * (stat q.1 q.2).2)) := by
    rintro ⟨a, b⟩
    by_cases hact : 0 < active.length
    · simp only [activeQuadDims, if_pos hact, List.mem_filter, dimPairs,
        List.mem_product, isIdentifiedInteraction, Bool.and_eq_true,
        decide_eq_true_eq, Bool.not_eq_true', decide_eq_false_iff_not]
      tauto
    · have hempty : active = [] := by
        cases active with
        | nil => rfl
        | cons x xs => simp at hact
      subst hempty
      simp [activeQuadDims]
  refine ⟨hmem, ?_, ?_, ?_⟩
  · by_cases hact : 0 < active.length
    · simp only [activeQuadDims, if_pos hact]
      exact (hnd.product hnd).filter _
    · simp [activeQuadDims, hact]
  · intro a b hab hba
    have h1 := (hmem (a, b)).mp hab
    have h2 := (hmem (b, a)).mp hba
    simp only at h1 h2
    omega
  · intro h
    subst h
    exact ⟨rfl, rfl⟩

/-- Witness for C5: with active dimensions `[0, 1]` and constant pair
statistics `(10, 1)` (interval `[8, 12]`, away from zero), the pair
`(0, 1)` is reported as an interaction. -/
theorem active_quad_dims_spec_witness :
    (0, 1) ∈ activeQuadDims [0, 1] (fun _ _ => ((10 : ℚ), (1 : ℚ))) :=
  ((active_quad_dims_spec [0, 1] (fun _ _ => ((10 : ℚ), (1 : ℚ)))
      (by decide)).1 (0, 1)).mpr (by norm_num)

/-- The pseudo-random draws `get_data` consumes after `onp.random.seed`:
`randW`/`binomW` feed the coefficient magnitudes and sign flips,
`randX`/`binomX` the covariates and their sign flips, and `bernY` the
Bernoulli label draw (its second argument is the raw score whose sigmoid
is the success probability).  The membership fields record the supports of
the corresponding numpy samplers. -/
structure RandomSource where
  randW : ℕ → ℚ
  binomW : ℕ → ℚ
  randX : ℕ → ℕ → ℚ
  binomX : ℕ → ℕ → ℚ
  bernY : ℕ → ℚ → ℚ
  randW_mem : ∀ k, 0 ≤ randW k ∧ randW k < 1
  binomW_mem : ∀ k, binomW k = 0 ∨ binomW k = 1
  randX_mem : ∀ i j, 0 ≤ randX i j ∧ randX i j < 1
  binomX_mem : ∀ i j, binomX i j = 0 ∨ binomX i j = 1
  bernY_mem : ∀ i q, bernY i q = 0 ∨ bernY i q = 1

/-- The tuple returned by `get_data`. -/
structure GDResult where
  X : List (List ℚ)
  Y : List ℚ
  W : List ℚ
  pairwise_coefficient : ℚ
  expected_quad_dims : List (ℕ × ℕ)

/-- Column `j` of a row-major matrix (each entry defaulting to `0`, only
used at in-range indices). -/
def col (X : List (List ℚ)) (j : ℕ) : List ℚ :=
  X.map (fun row => row.getD j 0)

/-- numpy basic indexing `X[:, j]` of an `N × P` array: the column when
`j < P`, and an `IndexError` (modelled as `none`) otherwise. -/
def columnW (X : List (List ℚ)) (P j : ℕ) : Option (List ℚ) :=
  if j < P then some (col X j) else none

/-- `W = 1.0 + 1.5 * onp.random.rand(S)` with the sign flip
`2 * binomial(1, 0.5, S) - 1` multiplied in. -/
def gen_W (S : ℕ) (rs : RandomSource) : List ℚ :=
  (List.range S).map
    (fun k => (1 + 3 / 2 * rs.randW k) * (2 * rs.binomW k - 1))

/-- `X = onp.random.rand(N, P) + 0.5` with the sign flip
`2 * binomial(1, 0.5, (N, P)) - 1` multiplied in. -/
def gen_X (N P : ℕ) (rs : RandomSource) : List (List ℚ) :=
  (List.range N).map
    (fun i => (List.range P).map
      (fun j => (rs.randX i j + 1 / 2) * (2 * rs.binomX i j - 1)))

/-- The raw score
`onp.sum(X[:, 0:S] * W, axis=-1)
  + pairwise_coefficient * (X[:, 0] * X[:, 1] - X[:, 2] * X[:, 3])`. -/
def gen_Yraw (N S : ℕ) (X : List (List ℚ)) (c0 c1 c2 c3 W : List ℚ) :
    List ℚ :=
  (List.range N).map (fun i =>
    ((((X.getD i []).take S).zip W).map (fun q => q.1 * q.2)).sum
      + 3 * (c0.getD i 0 * c1.getD i 0 - c2.getD i 0 * c3.getD i 0))

/-- `Y = 2 * onp.random.binomial(1, sigmoid(Yraw)) - 1`. -/
def gen_Y (N : ℕ) (rs : RandomSource) (Yraw : List ℚ) : List ℚ :=
  (List.range N).map (fun i => 2 * rs.bernY i (Yraw.getD i 0) - 1)

/-- `get_data(N, S, P, seed)`: asserts `S < P and P > 1 and S > 0` before
generating anything, generates `W`, `X` and the labels, and returns
`(X, Y, W, 3.0, [(0, 1), (2, 3)])`.  The four basic column accesses
`X[:, 0] ... X[:, 3]` raise `IndexError` when out of range. -/
def get_data (N S P : ℕ) (rs : RandomSource) : Except String GDResult :=
  if S < P ∧ 1 < P ∧ 0 < S then
    match columnW (gen_X N P rs) P 0, columnW (gen_X N P rs) P 1,
        columnW (gen_X N P rs) P 2, columnW (gen_X N P rs) P 3 with
    | some c0, some c1, some c2, some c3 =>
      Except.ok ⟨gen_X N P rs,
        gen_Y N rs (gen_Yraw N S (gen_X N P rs) c0 c1 c2 c3 (gen_W S rs)),
        gen_W S rs, 3, [(0, 1), (2, 3)]⟩
    | _, _, _, _ => Except.error "IndexError"
  else Except.error "AssertionError"

theorem columnW_lt {X : List (List ℚ)} {P j : ℕ} (h : j < P) :
    columnW X P j = some (col X j) := by
  unfold columnW
  rw [if_pos h]

theorem columnW_ge {X : List (List ℚ)} {P j : ℕ} (h : ¬j < P) :
    columnW X P j = none := by
  unfold columnW
  rw [if_neg h]

theorem get_data_ok (N S P : ℕ) (rs : RandomSource)
    (hcond : S < P ∧ 1 < P ∧ 0 < S) (hP4 : 4 ≤ P) :
    get_data N S P rs = Except.ok ⟨gen_X N P rs,
      gen_Y N rs (gen_Yraw N S (gen_X N P rs) (col (gen_X N P rs) 0)
        (col (gen_X N P rs) 1) (col (gen_X N P rs) 2) (col (gen_X N P rs) 3)
        (gen_W S rs)),
      gen_W S rs, 3, [(0, 1), (2, 3)]⟩ := by
  unfold get_data
  rw [if_pos hcond, columnW_lt (show 0 < P by omega),
    columnW_lt (show 1 < P by omega), columnW_lt (show 2 < P by omega),
    columnW_lt (show 3 < P by omega)]

theorem get_data_index_error (N S P : ℕ) (rs : RandomSource)
    (hcond : S < P ∧ 1 < P ∧ 0 < S) (hP4 : P < 4) :
    get_data N S P rs = Except.error "IndexError" := by
  have hP : P = 2 ∨ P = 3 := by omega
  rcases hP with h | h
  · subst h
    unfold get_data
    rw [if_pos hcond, columnW_lt (show 0 < 2 by omega),
      columnW_lt (show 1 < 2 by omega), columnW_ge (show ¬2 < 2 by omega),
      columnW_ge (show ¬3 < 2 by omega)]
  · subst h
    unfold get_data
    rw [if_pos hcond, columnW_lt (show 0 < 3 by omega),
      columnW_lt (show 1 < 3 by omega), columnW_lt (show 2 < 3 by omega),
      columnW_ge (show ¬3 < 3 by omega)]

theorem gen_W_bounds (S : ℕ) (rs : RandomSource) :
    (gen_W S rs).length = S ∧ ∀ w ∈ gen_W S rs, 1 ≤ |w| ∧ |w| ≤ 5 / 2 := by
  constructor
  · simp [gen_W]
  · intro w hw
    simp only [gen_W, List.mem_map, List.mem_range] at hw
    obtain ⟨k, _, rfl⟩ := hw
    obtain ⟨hr0, hr1⟩ := rs.randW_mem k
    have hmag : (1 : ℚ) ≤ 1 + 3 / 2 * rs.randW k ∧
        1 + 3 / 2 * rs.randW k ≤ 5 / 2 := by
      constructor <;> nlinarith
    rcases rs.binomW_mem k with hb | hb
    · rw [hb]
      have : (1 + 3 / 2 * rs.randW k) * (2 * 0 - 1)
          = -(1 + 3 / 2 * rs.randW k) := by ring
      rw [this, abs_neg, abs_of_nonneg (by linarith)]
      exact hmag
    · rw [hb]
      have : (1 + 3 / 2 * rs.randW k) * (2 * 1 - 1)
          = 1 + 3 / 2 * rs.randW k := by ring
      rw [this, abs_of_nonneg (by linarith)]
      exact hmag

/-- C4 (amended: `P ≥ 4` in place of `P > 1`): `get_data` returns `X` of
shape `(N, P)`, `Y` of length `N` with every entry `±1`, a coefficient
vector `W` of length `S` with every `|Wₖ| ∈ [1, 5/2]`, the pairwise
coefficient `3.0` and the fixed expected interaction pairs
`[(0, 1), (2, 3)]`. -/
theorem get_data_spec (N S P : ℕ) (rs : RandomSource) (_hN : 1 ≤ N)
    (hS : 0 < S) (hSP : S < P) (hP4 : 4 ≤ P) :
    ∃ g : GDResult, get_data N S P rs = Except.ok g ∧
      g.X.length = N ∧ (∀ row ∈ g.X, row.length = P) ∧
      g.Y.length = N ∧ (∀ y ∈ g.Y, y = 1 ∨ y = -1) ∧
      g.W.length = S ∧ (∀ w ∈ g.W, 1 ≤ |w| ∧ |w| ≤ 5 / 2) ∧
      g.pairwise_coefficient = 3 ∧ g.expected_quad_dims = [(0, 1), (2, 3)] := by
  have hcond : S < P ∧ 1 < P ∧ 0 < S := ⟨hSP, by omega, hS⟩
  refine ⟨_, get_data_ok N S P rs hcond hP4, ?_, ?_, ?_, ?_,
    (gen_W_bounds S rs).1, (gen_W_bounds S rs).2, rfl, rfl⟩
  · simp [gen_X]
  · intro row hrow
    simp only [gen_X, List.mem_map, List.mem_range] at hrow
    obtain ⟨i, _, rfl⟩ := hrow
    simp
  · simp [gen_Y]
  · intro y hy
    simp only [gen_Y, List.mem_map, List.mem_range] at hy
    obtain ⟨i, _, rfl⟩ := hy
    rcases rs.bernY_mem i ((gen_Yraw N S (gen_X N P rs) (col (gen_X N P rs) 0)
        (col (gen_X N P rs) 1) (col (gen_X N P rs) 2) (col (gen_X N P rs) 3)
        (gen_W S rs)).getD i 0) with hb | hb
    · right
      rw [hb]
      norm_num
    · left
      rw [hb]
      norm_num

/-- A concrete random source: every uniform draw is `0`, every Bernoulli
draw is `0`. -/
def rs0 : RandomSource where
  randW := fun _ => 0
  binomW := fun _ => 0
  randX := fun _ _ => 0
  binomX := fun _ _ => 0
  bernY := fun _ _ => 0
  randW_mem := fun _ => ⟨le_refl 0, by norm_num⟩
  binomW_mem := fun _ => Or.inl rfl
  randX_mem := fun _ _ => ⟨le_refl 0, by norm_num⟩
  binomX_mem := fun _ _ => Or.inl rfl
  bernY_mem := fun _ _ => Or.inl rfl

/-- Counterexample to C4 as stated: at `N = 1`, `S = 1`, `P = 2` (which
satisfies `N ≥ 1`, `P > 1`, `0 < S < P`) `get_data` raises `IndexError`
at the column access `X[:, 2]` instead of returning a dataset. -/
theorem get_data_P2_index_error :
    get_data 1 1 2 rs0 = Except.error "IndexError" :=
  get_data_index_error 1 1 2 rs0 (by omega) (by omega)

/-- Witness for C4 (amended) at `N = 1`, `S = 1`, `P = 4`. -/
theorem get_data_spec_witness :
    ∃ g : GDResult, get_data 1 1 4 rs0 = Except.ok g ∧
      g.X.length = 1 ∧ (∀ row ∈ g.X, row.length = 4) ∧
      g.Y.length = 1 ∧ (∀ y ∈ g.Y, y = 1 ∨ y = -1) ∧
      g.W.length = 1 ∧ (∀ w ∈ g.W, 1 ≤ |w| ∧ |w| ≤ 5 / 2) ∧
      g.pairwise_coefficient = 3 ∧ g.expected_quad_dims = [(0, 1), (2, 3)] :=
  get_data_spec 1 1 4 rs0 (by omega) (by omega) (by omega) (by omega)

/-- C10 (amended): `get_data` raises `AssertionError`, before generating
any data, exactly when its arguments violate `S < P and P > 1 and S > 0`;
when the assertion passes it returns normally exactly when additionally
`P ≥ 4`, and raises `IndexError` when `P < 4` (the column accesses
`X[:, 2]`, `X[:, 3]`). -/
theorem get_data_error_behaviour (N S P : ℕ) (rs : RandomSource) :
    (get_data N S P rs = Except.error "AssertionError" ↔
      ¬(S < P ∧ 1 < P ∧ 0 < S)) ∧
    ((S < P ∧ 1 < P ∧ 0 < S) →
      ((∃ g, get_data N S P rs = Except.ok g) ↔ 4 ≤ P)) ∧
    ((S < P ∧ 1 < P ∧ 0 < S) → P < 4 →
      get_data N S P rs = Except.error "IndexError") := by
  refine ⟨⟨?_, ?_⟩, ?_, fun hcond hP4 => get_data_index_error N S P rs hcond hP4⟩
  · intro h
    by_contra hcond
    rcases Nat.lt_or_ge P 4 with hP4 | hP4
    · rw [get_data_index_error N S P rs hcond hP4] at h
      simp at h
    · rw [get_data_ok N S P rs hcond hP4] at h
      simp at h
  · intro h
    unfold get_data
    rw [if_neg h]
  · intro hcond
    constructor
    · rintro ⟨g, hg⟩
      by_contra hP4
      push_neg at hP4
      rw [get_data_index_error N S P rs hcond hP4] at hg
      simp at hg
    · intro hP4
      exact ⟨_, get_data_ok N S P rs hcond hP4⟩

/-- Counterexample to C10 as stated: at `N = 2`, `S = 1`, `P = 3` the
assertion passes but `get_data` does not return normally: it raises
`IndexError` at the column access `X[:, 3]`. -/
theorem get_data_P3_index_error :
    get_data 2 1 3 rs0 = Except.error "IndexError" :=
  get_data_index_error 2 1 3 rs0 (by omega) (by omega)

/-- Witness for C10 (amended) at `N = 5`, `S = 1`, `P = 4`. -/
theorem get_data_error_behaviour_witness :
    ∃ g, get_data 5 1 4 rs0 = Except.ok g :=
  ((get_data_error_behaviour 5 1 4 rs0).2.1 (by omega)).mpr (by omega)

/-- The command-line arguments of `slog.py` (all integer-valued; `device`
only selects the platform and is not part of the computation). -/
structure Args where
  num_samples : ℕ
  num_warmup : ℕ
  num_chains : ℕ
  mtd : ℕ
  num_data : ℕ
  num_dimensions : ℕ
  seed : ℕ
  active_dimensions : ℕ
  thinning : ℕ
deriving DecidableEq

/-- The hyperparameter dictionary built in `main`. -/
structure Hypers where
  expected_sparsity : ℕ
  alpha1 : ℚ
  beta1 : ℚ
  sigma : ℚ
  alpha2 : ℚ
  beta2 : ℚ
  c : ℚ

/-- `hypers = {'expected_sparsity': args.active_dimensions, 'alpha1': 2.0,
'beta1': 1.0, 'sigma': 2.0, 'alpha2': 2.0, 'beta2': 1.0, 'c': 1.0}`. -/
def hypersOf (args : Args) : Hypers :=
  ⟨args.active_dimensions, 2, 1, 2, 2, 1, 1⟩

/-- The external sampler and posterior-analysis routines, abstracted over
an arbitrary type `σ` of posterior sample sets: `nuts_mcmc` stands for
building a NUTS kernel with a max tree depth and running MCMC with the
given warmup / samples / chains counts and RNG seed, `thin` for the
`v[::args.thinning]` thinning, and the two analyzers for
`analyze_dimension` / `analyze_pair_of_dimensions` (posterior mean, std). -/
structure Backend (σ : Type) where
  nuts_mcmc : ℕ → ℕ → ℕ → ℕ → ℕ → GDResult → Hypers → σ
  thin : σ → ℕ → σ
  analyze_dimension : σ → GDResult → ℕ → Hypers → ℚ × ℚ
  analyze_pair : σ → GDResult → ℕ → ℕ → Hypers → ℚ × ℚ

/-- `run_inference(model, args, rng_key, X, Y, hypers)`: builds
`NUTS(model, max_tree_depth=args.mtd)`, runs
`MCMC(kernel, args.num_warmup, args.num_samples, num_chains=args.num_chains)`
on the RNG key, and thins the samples by `args.thinning`.  These are the
only fields of `args` it reads. -/
def run_inference {σ : Type} (B : Backend σ) (args : Args) (rng_seed : ℕ)
    (data : GDResult) (hypers : Hypers) : σ :=
  B.thin (B.nuts_mcmc args.mtd args.num_warmup args.num_samples
    args.num_chains rng_seed data hypers) args.thinning

/-- The per-`N` entry `results[N]` of `main`, together with the
intermediate values the loop body computes. -/
structure RunRecord (σ : Type) where
  dataset : Except String GDResult
  samples : Option σ
  coeffStats : List (ℚ × ℚ)
  active_dims : List ℕ
  correct_singletons : ℕ
  false_singletons : ℕ
  missed_singletons : ℕ
  active_quad_dims : List (ℕ × ℕ)
  correct_quads : ℕ
  false_quads : ℕ
  missed_quads : ℕ

/-- One iteration of `main`'s `for N in [200]` loop: generate data with
`get_data(N=N, P=args.num_dimensions, S=args.active_dimensions,
seed=args.seed)`, run inference seeded with `PRNGKey(args.seed)`, analyze
every dimension `0 .. args.num_dimensions - 1`, classify the active set,
count correct/false/missed singletons against
`arange(args.active_dimensions)`, and collect the pairwise interactions
and their counts against `expected_quad_dims`. -/
def runForN {σ : Type} (B : Backend σ) (rs : RandomSource) (args : Args)
    (N : ℕ) : RunRecord σ :=
  match get_data N args.active_dimensions args.num_dimensions rs with
  | Except.error e => ⟨Except.error e, none, [], [], 0, 0, 0, [], 0, 0, 0⟩
  | Except.ok data =>
    let hypers := hypersOf args
    let samples := run_inference B args args.seed data hypers
    let stats := (List.range args.num_dimensions).map
      (fun dim => B.analyze_dimension samples data dim hypers)
    let active := activeDims stats
    let expected_active := List.range args.active_dimensions
    let aqd := activeQuadDims active
      (fun d1 d2 => B.analyze_pair samples data d1 d2 hypers)
    ⟨Except.ok data, some samples, stats, active,
      (active.toFinset ∩ expected_active.toFinset).card,
      (active.toFinset \ expected_active.toFinset).card,
      (expected_active.toFinset \ active.toFinset).card,
      aqd,
      (aqd.toFinset ∩ data.expected_quad_dims.toFinset).card,
      (aqd.toFinset \ data.expected_quad_dims.toFinset).card,
      (data.expected_quad_dims.toFinset \ aqd.toFinset).card⟩

/-- The `results` dictionary of `main`: `results['args'] = args` first,
then one entry per dataset size `N`. -/
structure MainResult (σ : Type) where
  args : Args
  runs : List (RunRecord σ)

/-- `main(args)`: the dataset size is the fixed list `[200]`; the
commented-out `get_data(N=args.num_data, ...)` call is not executed. -/
def mainOutcome {σ : Type} (B : Backend σ) (rs : RandomSource)
    (args : Args) : MainResult σ :=
  ⟨args, [200].map (runForN B rs args)⟩

/-- C9 (amended): `args.num_data` never enters any computation of `main`:
every per-`N` record (dataset, samples, statistics, classifications and
counts) is unchanged under any change of `num_data`.  Only the verbatim
echo of `args` stored in the results dictionary (and printed with it)
differs. -/
theorem num_data_unused_in_computation {σ : Type} (B : Backend σ)
    (rs : RandomSource) (args : Args) (v : ℕ) :
    (mainOutcome B rs { args with num_data := v }).runs
      = (mainOutcome B rs args).runs := rfl

/-- A trivial concrete backend over `σ := Unit`. -/
def B0 : Backend Unit where
  nuts_mcmc := fun _ _ _ _ _ _ _ => ()
  thin := fun _ _ => ()
  analyze_dimension := fun _ _ _ _ => (0, 0)
  analyze_pair := fun _ _ _ _ _ => (0, 0)

/-- The default arguments of `slog.py` with `num_dimensions` lowered to 4
and `active_dimensions` to 1 (so `get_data` succeeds), `num_data = 0`. -/
def args1 : Args := ⟨300, 200, 1, 6, 0, 4, 0, 1, 10⟩

/-- `args1` with `num_data = 1`. -/
def args2 : Args := { args1 with num_data := 1 }

/-- Counterexample to C9 as stated: two runs whose arguments differ only
in `--num-data` do not produce identical results: the results dictionary
(which `main` prints at the end) stores `args` itself, including
`num_data`. -/
theorem mainOutcome_depends_on_num_data :
    mainOutcome B0 rs0 args1 ≠ mainOutcome B0 rs0 args2 := by
  intro h
  have h2 := congrArg MainResult.args h
  simp only [mainOutcome] at h2
  exact absurd (congrArg Args.num_data h2) (by decide)

/-- What a single loop iteration prints: the label-count line from
`get_data`, the MCMC summary and timing, the coefficient header, one line
per dimension, the singleton counts, the identified-total line, the
expected-pairwise header, one line per considered pair (`dim1 < dim2`),
and the quad counts.  Nothing is printed when `get_data` raises. -/
def runPrintLines {σ : Type} (rec : RunRecord σ) (args : Args) :
    List String :=
  match rec.dataset with
  | Except.error _ => []
  | Except.ok data =>
    ["number of 1s: "
        ++ toString (data.Y.filter (fun y => decide (y = 1))).length
        ++ "  number of -1s: "
        ++ toString (data.Y.filter (fun y => decide (y = -1))).length,
      "mcmc summary",
      "MCMC elapsed time",
      "Coefficients theta_1 to theta_" ++ toString args.active_dimensions
        ++ " used to generate the data"]
    ++ (rec.coeffStats.map (fun _ => "[dimension] active or inactive"))
    ++ ["correct_singletons false_singletons missed_singletons",
      "Identified a total of " ++ toString rec.active_dims.length
        ++ " active dimensions; expected "
        ++ toString args.active_dimensions,
      "The single quadratic coefficient theta_12 used to generate the data"]
    ++ (((dimPairs rec.active_dims).filter
        (fun q => decide (q.1 < q.2))).map
      (fun q => "pairwise interaction between dimensions "
        ++ toString q.1 ++ " and " ++ toString q.2))
    ++ ["correct_quads false_quads missed_quads"]

/-- Everything `main` prints: the loop iterations followed by the final
`RESULTS` dump.  The `log_dir`/`log_file` assignments are pure string
operations and the `pickle.dump` block is commented out, so no further
statement has an effect. -/
def mainPrintLines {σ : Type} (B : Backend σ) (rs : RandomSource)
    (args : Args) : List String :=
  ((mainOutcome B rs args).runs.flatMap
    (fun rec => runPrintLines rec args)) ++ ["RESULTS"]

/-- An externally visible effect of the process: a line printed to
standard output, or a file written to a path. -/
inductive Effect where
  | print : String → Effect
  | fileWrite : String → String → Effect
deriving DecidableEq

/-- The effect trace of a complete run of `main`: every executed statement
with an external effect is a `print`. -/
def mainEffects {σ : Type} (B : Backend σ) (rs : RandomSource)
    (args : Args) : List Effect :=
  (mainPrintLines B rs args).map Effect.print

/-- C7: a complete run of `main` keeps no persistent state: no file is
ever written (the pickle dump of the results dictionary is never
executed), and every externally visible effect in the trace is a print to
standard output. -/
theorem main_writes_no_files {σ : Type} (B : Backend σ) (rs : RandomSource)
    (args : Args) :
    (∀ path payload, Effect.fileWrite path payload ∉ mainEffects B rs args) ∧
    (∀ e ∈ mainEffects B rs args, ∃ s, e = Effect.print s) := by
  constructor
  · intro path payload hmem
    simp only [mainEffects, List.mem_map] at hmem
    obtain ⟨s, _, hs⟩ := hmem
    exact Effect.noConfusion hs
  · intro e he
    simp only [mainEffects, List.mem_map] at he
    obtain ⟨s, _, rfl⟩ := he
    exact ⟨s, rfl⟩

/-- `args1` with `active_dimensions = 0`, so that `get_data` raises and
the effect trace reduces to the single final `RESULTS` print. -/
def args3 : Args := { args1 with active_dimensions := 0 }

/-- Witness for C7 at the concrete backend `B0`, draws `rs0` and arguments
`args3`. -/
theorem main_writes_no_files_witness :
    (Effect.fileWrite "slog.pkl" "results" ∉ mainEffects B0 rs0 args3) ∧
    (∃ s, Effect.print "RESULTS" = Effect.print s) :=
  ⟨(main_writes_no_files B0 rs0 args3).1 "slog.pkl" "results",
    (main_writes_no_files B0 rs0 args3).2 (Effect.print "RESULTS")
      (by rw [show mainEffects B0 rs0 args3 = [Effect.print "RESULTS"]
          from rfl]
          exact List.mem_singleton.mpr rfl)⟩

end Slog
